import Mathlib

/-!
Formal model of the confidence-driven triage, analyze gating, risk-level
display, API payload shape and chat-history persistence of the MediSense
frontend (multiDiseasePred repository).  The definitions below are shallow
embeddings of the TypeScript code in src/web/src/pages/Upload.tsx,
src/web/src/pages/Triage.tsx, the History page (src/unnamed/part_001),
src/web/src/lib/api.ts and the floating ChatBot component.  Theorems at the
end of the file settle the specification claims against these definitions.
-/

/-- Values that can sit in the features record of the Upload page: a string
coming from a text input, a number coming from extraction, the JS null, or
undefined for an absent key. -/
inductive JSVal
  | undefined
  | null
  | str (s : String)
  | num (q : ℚ)
deriving DecidableEq

/-- Tasks offered by the Upload page select control (Upload.tsx line 348). -/
inductive MedTask
  | heart
  | diabetes
  | parkinsons
  | general
deriving DecidableEq

/-- Embeds numericFieldsByTask from Upload.tsx lines 162-167: the known
numeric fields per task used by the validity check. -/
def numericFieldsByTask : MedTask → List String
  | .heart => ["age", "trestbps", "chol", "thalach", "oldpeak", "ca"]
  | .diabetes => ["Pregnancies", "Glucose", "BloodPressure", "SkinThickness",
      "Insulin", "BMI", "DiabetesPedigreeFunction", "Age"]
  | .parkinsons => ["fo", "fhi", "flo", "jitter_percent", "jitter_abs", "rap",
      "ppq", "ddp", "shimmer", "shimmer_db", "apq3", "apq5", "apq", "dda",
      "nhr", "hnr", "rpde", "dfa", "spread1", "spread2", "d2", "ppe"]
  | .general => []

/-- Embeds the JS property read features[k]: the first binding of the key in
the record, or undefined when the key is absent. -/
def lookupVal (fs : List (String × JSVal)) (k : String) : JSVal :=
  match fs.find? (fun p => decide (p.1 = k)) with
  | some p => p.2
  | none => .undefined

/-- Embeds the emptiness test of Upload.tsx line 176: the value is the empty
string, null or undefined. -/
def isEmptyVal : JSVal → Bool
  | .undefined => true
  | .null => true
  | .str s => decide (s = "")
  | .num _ => false

/-- Counts the leading decimal digits of a character list and returns the
rest of the list. -/
def spanDigits : List Char → Nat × List Char
  | [] => (0, [])
  | ch :: r =>
    if ch.isDigit then
      let p := spanDigits r
      (p.1 + 1, p.2)
    else (0, ch :: r)

/-- Recognizes the exponent suffix of a JS decimal literal: empty, or e / E
followed by an optional sign and at least one digit. -/
def expPart : List Char → Bool
  | [] => true
  | ch :: r =>
    if ch = 'e' ∨ ch = 'E' then
      let r2 := match r with
        | s :: r3 => if s = '+' ∨ s = '-' then r3 else s :: r3
        | [] => []
      let p := spanDigits r2
      decide (0 < p.1) && decide (p.2 = [])
    else false

/-- Recognizes the body of a JS decimal literal: optional sign, digits with an
optional fractional part, then an optional exponent; at least one digit must
be present before the exponent. -/
def decimalBody (l : List Char) : Bool :=
  let l1 := match l with
    | ch :: r => if ch = '+' ∨ ch = '-' then r else ch :: r
    | [] => []
  let p := spanDigits l1
  let q := match p.2 with
    | '.' :: r => spanDigits r
    | _ => (0, p.2)
  decide (0 < p.1 + q.1) && expPart q.2

/-- Whitespace characters trimmed by JS Number conversion. -/
def isJSSpace (ch : Char) : Bool :=
  ch = ' ' ∨ ch = '\t' ∨ ch = '\n' ∨ ch = '\r'

/-- Embeds Number.isFinite(Number(s)) for string values as used in Upload.tsx
line 179: JS trims whitespace, maps the resulting empty string to 0, and
parses signed decimal literals; anything else is NaN.  Hex and Infinity
forms do not occur in this UI and are not modelled. -/
def jsStrFinite (s : String) : Bool :=
  let l := ((s.toList.dropWhile isJSSpace).reverse.dropWhile isJSSpace).reverse
  match l with
  | [] => true
  | _ => decimalBody l

/-- Embeds Number.isFinite(Number(v)): undefined maps to NaN, null maps to 0,
numbers are finite, strings go through decimal parsing. -/
def isFiniteNumber : JSVal → Bool
  | .undefined => false
  | .null => true
  | .num _ => true
  | .str s => jsStrFinite s

/-- Embeds invalidMissing from Upload.tsx lines 168-183: with no ingest the
list is empty; otherwise a missing key other than age and Age is flagged when
its current value is empty, or when it is a known numeric field whose value
is not a finite number.  The loop pushes keys in order, which is a filter of
the missing list. -/
def invalidMissing (haveIngest : Bool) (task : MedTask) (missing : List String)
    (features : List (String × JSVal)) : List String :=
  if haveIngest then
    missing.filter (fun k =>
      if decide (k = "age") || decide (k = "Age") then false
      else
        let v := lookupVal features k
        if isEmptyVal v then true
        else decide (k ∈ numericFieldsByTask task) && !(isFiniteNumber v))
  else []

/-- Embeds canAnalyze from Upload.tsx line 184: an ingest happened, no missing
field is invalid, and the task is not general. -/
def canAnalyze (haveIngest : Bool) (task : MedTask) (missing : List String)
    (features : List (String × JSVal)) : Bool :=
  haveIngest && decide ((invalidMissing haveIngest task missing features).length = 0)
    && !(decide (task = MedTask.general))

/-- Embeds the per-field extraction metadata type of api.ts line 195: value,
optional unit, optional confidence, optional source. -/
structure FieldMeta where
  value : JSVal
  unit : Option String
  confidence : Option ℚ
  source : Option String
deriving DecidableEq

/-- Buckets of the confidence grouping in Upload.tsx lines 187-202. -/
inductive Bucket
  | high
  | medium
  | low
deriving DecidableEq

/-- Embeds the threshold chain of Upload.tsx lines 197-199: confidence at
least 0.95 is high, at least 0.90 is medium, anything below is low. -/
def bucketOf (c : ℚ) : Bucket :=
  if 95/100 ≤ c then .high else if 9/10 ≤ c then .medium else .low

/-- Embeds the two skip lines of the grouping loop (Upload.tsx lines 192-194):
keys listed as missing and the keys age and Age are never classified. -/
def keyConsidered (missing : List String) (k : String) : Bool :=
  !(decide (k ∈ missing)) && !(decide (k = "age")) && !(decide (k = "Age"))

/-- Selection predicate of the grouping loop for one bucket: the key survives
the skip lines, its confidence is a number, and the threshold chain puts that
confidence in the bucket. -/
def groupPred (missing : List String) (b : Bucket) (km : String × FieldMeta) : Bool :=
  keyConsidered missing km.1 &&
    (match km.2.confidence with
     | some c => decide (bucketOf c = b)
     | none => false)

/-- Keys that the grouping loop pushes into the given bucket, in extraction
order (Upload.tsx lines 187-202). -/
def groupOf (meta : List (String × FieldMeta)) (missing : List String)
    (b : Bucket) : List String :=
  (meta.filter (groupPred missing b)).map Prod.fst

/-- Result record of the groups useMemo in Upload.tsx lines 187-202. -/
structure Groups where
  high : List String
  medium : List String
  low : List String

/-- Embeds the groups useMemo: the three bucket lists. -/
def groups (meta : List (String × FieldMeta)) (missing : List String) : Groups :=
  ⟨groupOf meta missing .high, groupOf meta missing .medium, groupOf meta missing .low⟩

/-- Embeds the filter of Upload.tsx lines 208 and 215 removing the keys age,
Age and sex from the two user-facing lists. -/
def exemptFilter (k : String) : Bool :=
  !(decide (k = "age")) && !(decide (k = "Age")) && !(decide (k = "sex"))

/-- Embeds the JS Set based dedup of Upload.tsx line 213: keeps the first
occurrence of each key, in insertion order. -/
def insertionDedup (l : List String) : List String :=
  l.foldl (fun acc k => if k ∈ acc then acc else acc ++ [k]) []

/-- Embeds optionalConfirmationKeys from Upload.tsx lines 205-209: the high
and medium groups concatenated, with age, Age and sex removed. -/
def optionalConfirmationKeys (meta : List (String × FieldMeta))
    (missing : List String) : List String :=
  ((groups meta missing).high ++ (groups meta missing).medium).filter exemptFilter

/-- Embeds requiredKeys from Upload.tsx lines 212-217: missing keys and the
low group, deduplicated, with age, Age and sex removed. -/
def requiredKeys (meta : List (String × FieldMeta))
    (missing : List String) : List String :=
  (insertionDedup (missing ++ (groups meta missing).low)).filter exemptFilter

/-- Prediction payload stored in the latest_result record (Upload.tsx lines
268-272). -/
structure Prediction where
  label : Int
  probability : ℚ
  health_score : ℚ
deriving DecidableEq

/-- Embeds the response type of predictWithFeatures in api.ts lines 213-221.
The optional warnings list carries no information the claims use and is kept
as a list of strings. -/
structure PredResponse where
  task : MedTask
  label : Int
  probability : ℚ
  health_score : ℚ
  top_contributors : Option (List String)
  warnings : Option (List String)
  prediction_id : String

/-- Shape of the latest_result record stashed in localStorage by the Upload
page; lifestyle and symptoms carry no information the claims use and are
omitted. -/
structure StoredResult where
  task : MedTask
  features : List (String × JSVal)
  prediction : Option Prediction
  prediction_id : Option String

/-- Embeds the general mode stash of Upload.tsx lines 239-248: the record is
written with prediction null and prediction_id null. -/
def generalStash (features : List (String × JSVal)) : StoredResult :=
  ⟨MedTask.general, features, none, none⟩

/-- Embeds the stash written by onAnalyze (Upload.tsx lines 265-276) from the
prediction response: label, probability and health_score are copied into a
non-null prediction. -/
def analyzeStash (task : MedTask) (features : List (String × JSVal))
    (p : PredResponse) : StoredResult :=
  ⟨task, features, some ⟨p.label, p.probability, p.health_score⟩, some p.prediction_id⟩

/-- Embeds the text field of getRiskLevel from the History page
(src/unnamed/part_001 lines 138-143): label 1 yields the Higher Risk text,
any other label yields the Lower Risk text; the probability argument is
unused by the source. -/
def getRiskLevel (label : Int) (probability : ℚ) : String :=
  if label = 1 then ("Higher Risk") else ("Lower Risk")

/-- Embeds the risk phrase of the personalized greeting in Triage.tsx lines
254-257: the phrase is computed from the stored prediction label alone; the
stored task in latest is in scope at the call site but unused. -/
def personalizedRiskLevel (latest : StoredResult) (p : Prediction) : String :=
  if p.label = 1 then ("higher risk") else ("lower risk")

/-- Field names of the ingestReport response type in api.ts lines 190-199. -/
def ingestResponseFields : List String :=
  ["report_id", "extracted", "missing_fields", "warnings", "extracted_meta",
   "task", "raw_text", "out_of_range_fields"]

/-- Field names of the per-field extracted_meta records in api.ts line 195. -/
def extractedMetaFields : List String :=
  ["value", "unit", "confidence", "source"]

/-- Field names of the predictWithFeatures response type in api.ts lines
213-221. -/
def predictResponseFields : List String :=
  ["task", "label", "probability", "health_score", "top_contributors",
   "warnings", "prediction_id"]

/-- Chat message of the Dr. Intelligence interfaces. -/
structure ChatMsg where
  role : String
  content : String
deriving DecidableEq

/-- Embeds Array.prototype.slice applied at -10: the last ten elements of the
array (all of it when shorter). -/
def takeLastTen (l : List ChatMsg) : List ChatMsg :=
  l.drop (l.length - 10)

/-- Events acting on the two persisted chat histories: a completed ask or
sendMessage turn appends the user message and the reply and persists the
last ten messages (Triage.tsx lines 197-199 and 218-220, ChatBot line 690);
a new report clears the messages, seeds a greeting and removes the stored
history (Triage.tsx lines 52-78, ChatBot lines 447-466). -/
inductive ChatEvent
  | triageTurn (q a : String)
  | triageNewReport (greeting : String)
  | floatTurn (q a : String)
  | floatNewReport (greeting : String)

/-- Message state of both chat interfaces together with the contents of the
two localStorage keys dr_intelligence_chat_history_triage and
dr_intelligence_chat_history_floating; none models an absent key. -/
structure ChatStore where
  triageMsgs : List ChatMsg
  triageStored : Option (List ChatMsg)
  floatMsgs : List ChatMsg
  floatStored : Option (List ChatMsg)

/-- Initial state: no messages, neither key present. -/
def initChat : ChatStore := ⟨[], none, [], none⟩

/-- One step of the chat system. -/
def chatStep (s : ChatStore) : ChatEvent → ChatStore
  | .triageTurn q a =>
    let ms := s.triageMsgs ++ [⟨"user", q⟩, ⟨"ai", a⟩]
    { s with triageMsgs := ms, triageStored := some (takeLastTen ms) }
  | .triageNewReport g =>
    { s with triageMsgs := [⟨"ai", g⟩], triageStored := none }
  | .floatTurn q a =>
    let ms := s.floatMsgs ++ [⟨"user", q⟩, ⟨"ai", a⟩]
    { s with floatMsgs := ms, floatStored := some (takeLastTen ms) }
  | .floatNewReport g =>
    { s with floatMsgs := [⟨"ai", g⟩], floatStored := none }

/-- Runs a sequence of chat events from the initial state. -/
def runChat (evs : List ChatEvent) : ChatStore :=
  evs.foldl chatStep initChat

/-- Extraction metadata with confidence 0.97 used in concrete evaluations. -/
def meta97 : FieldMeta := ⟨JSVal.num 260, none, some (97/100), none⟩

/-- Extraction metadata with confidence 0.93 used in concrete evaluations. -/
def meta93 : FieldMeta := ⟨JSVal.num 130, none, some (93/100), none⟩

/-- Extraction metadata with confidence 0.5 used in concrete evaluations. -/
def meta50 : FieldMeta := ⟨JSVal.num 20, none, some (1/2), none⟩

/-- Extraction metadata whose confidence is absent, used in concrete
evaluations. -/
def metaNoConf : FieldMeta := ⟨JSVal.num 260, none, none, none⟩

/-- Characterization of the considered check as a proposition. -/
lemma keyConsidered_eq_true {missing : List String} {k : String} :
    keyConsidered missing k = true ↔ k ∉ missing ∧ k ≠ "age" ∧ k ≠ "Age" := by
  simp [keyConsidered, and_assoc]

/-- Characterization of the exemption filter as a proposition. -/
lemma exemptFilter_eq_true {k : String} :
    exemptFilter k = true ↔ k ≠ "age" ∧ k ≠ "Age" ∧ k ≠ "sex" := by
  simp [exemptFilter, and_assoc]

/-- Characterization of the per-bucket selection predicate. -/
lemma groupPred_eq_true {missing : List String} {b : Bucket} {k : String}
    {m : FieldMeta} :
    groupPred missing b (k, m) = true ↔
      keyConsidered missing k = true ∧ ∃ c, m.confidence = some c ∧ bucketOf c = b := by
  cases h : m.confidence with
  | none => simp [groupPred, h]
  | some c => simp [groupPred, h]

/-- Membership in a bucket list unfolded to the underlying metadata. -/
lemma mem_groupOf {meta : List (String × FieldMeta)} {missing : List String}
    {b : Bucket} {k : String} :
    k ∈ groupOf meta missing b ↔
      ∃ m, (k, m) ∈ meta ∧ keyConsidered missing k = true ∧
        ∃ c, m.confidence = some c ∧ bucketOf c = b := by
  unfold groupOf
  simp only [List.mem_map, List.mem_filter]
  constructor
  · rintro ⟨⟨k1, m⟩, ⟨hmem, hp⟩, rfl⟩
    obtain ⟨hcons, c, hc, hb⟩ := groupPred_eq_true.mp hp
    exact ⟨m, hmem, hcons, c, hc, hb⟩
  · rintro ⟨m, hmem, hcons, c, hc, hb⟩
    exact ⟨(k, m), ⟨hmem, groupPred_eq_true.mpr ⟨hcons, c, hc, hb⟩⟩, rfl⟩

/-- Single step of the insertion-order dedup preserves membership. -/
lemma mem_dedupStep (acc : List String) (x k : String) :
    (k ∈ if x ∈ acc then acc else acc ++ [x]) ↔ k ∈ acc ∨ k = x := by
  by_cases hx : x ∈ acc
  · rw [if_pos hx]
    constructor
    · exact Or.inl
    · rintro (h | rfl)
      · exact h
      · exact hx
  · rw [if_neg hx]
    simp

/-- Folding the dedup step preserves membership. -/
lemma mem_insertionDedup_aux (l : List String) (acc : List String) (k : String) :
    (k ∈ l.foldl (fun a x => if x ∈ a then a else a ++ [x]) acc) ↔ k ∈ acc ∨ k ∈ l := by
  induction l generalizing acc with
  | nil => simp
  | cons x r ih =>
    rw [List.foldl_cons, ih, mem_dedupStep]
    simp [or_assoc]

/-- The insertion-order dedup has the same members as its input. -/
lemma mem_insertionDedup {l : List String} {k : String} :
    k ∈ insertionDedup l ↔ k ∈ l := by
  unfold insertionDedup
  rw [mem_insertionDedup_aux]
  simp

/-- Membership in the optional confirmation list unfolded. -/
lemma mem_optionalConfirmationKeys {meta : List (String × FieldMeta)}
    {missing : List String} {k : String} :
    k ∈ optionalConfirmationKeys meta missing ↔
      (k ∈ groupOf meta missing .high ∨ k ∈ groupOf meta missing .medium) ∧
        (k ≠ "age" ∧ k ≠ "Age" ∧ k ≠ "sex") := by
  unfold optionalConfirmationKeys groups
  rw [List.mem_filter, List.mem_append, exemptFilter_eq_true]

/-- Membership in the required list unfolded. -/
lemma mem_requiredKeys {meta : List (String × FieldMeta)}
    {missing : List String} {k : String} :
    k ∈ requiredKeys meta missing ↔
      (k ∈ missing ∨ k ∈ groupOf meta missing .low) ∧
        (k ≠ "age" ∧ k ≠ "Age" ∧ k ≠ "sex") := by
  unfold requiredKeys groups
  rw [List.mem_filter, mem_insertionDedup, List.mem_append, exemptFilter_eq_true]

/-- With pairwise distinct keys, a key determines its metadata. -/
lemma nodup_key_unique {k : String} {m m2 : FieldMeta} :
    ∀ {l : List (String × FieldMeta)}, (l.map Prod.fst).Nodup →
      (k, m) ∈ l → (k, m2) ∈ l → m = m2
  | [], _, h1, _ => by cases h1
  | p :: r, h, h1, h2 => by
    rw [List.map_cons, List.nodup_cons] at h
    rcases List.mem_cons.mp h1 with e1 | t1
    · rcases List.mem_cons.mp h2 with e2 | t2
      · exact congrArg Prod.snd (e1.trans e2.symm)
      · exfalso
        apply h.1
        have hk : k ∈ r.map Prod.fst := by
          simpa using List.mem_map_of_mem Prod.fst t2
        rw [← e1]
        exact hk
    · rcases List.mem_cons.mp h2 with e2 | t2
      · exfalso
        apply h.1
        have hk : k ∈ r.map Prod.fst := by
          simpa using List.mem_map_of_mem Prod.fst t1
        rw [← e2]
        exact hk
      · exact nodup_key_unique h.2 t1 t2

/-- Confidence at least 0.95 lands in the high bucket. -/
lemma bucketOf_eq_high {c : ℚ} (h : 95/100 ≤ c) : bucketOf c = .high := by
  rw [bucketOf, if_pos h]

/-- Confidence in the interval from 0.90 up to but excluding 0.95 lands in the
medium bucket. -/
lemma bucketOf_eq_medium {c : ℚ} (h1 : 9/10 ≤ c) (h2 : c < 95/100) :
    bucketOf c = .medium := by
  rw [bucketOf, if_neg (not_le.mpr h2), if_pos h1]

/-- Confidence below 0.90 lands in the low bucket. -/
lemma bucketOf_eq_low {c : ℚ} (h : c < 9/10) : bucketOf c = .low := by
  have h2 : ¬ (95/100 ≤ c) := by
    intro hc
    exact absurd (le_trans (by norm_num) hc) (not_le.mpr h)
  rw [bucketOf, if_neg h2, if_neg (not_le.mpr h)]

/-- With pairwise distinct keys, a key whose metadata puts it in one bucket is
absent from every other bucket list. -/
lemma not_mem_groupOf_of_bucket {meta : List (String × FieldMeta)}
    {missing : List String} {k : String} {m : FieldMeta} {c : ℚ} {b b2 : Bucket}
    (hnd : (meta.map Prod.fst).Nodup) (hmem : (k, m) ∈ meta)
    (hc : m.confidence = some c) (hb : bucketOf c = b) (hne : b2 ≠ b) :
    k ∉ groupOf meta missing b2 := by
  intro hk
  obtain ⟨m2, hmem2, _, c2, hc2, hb2⟩ := mem_groupOf.mp hk
  have hm : m2 = m := nodup_key_unique hnd hmem2 hmem
  rw [hm, hc] at hc2
  cases hc2
  exact hne (hb2.symm.trans hb)

/-- C1 counterexample: the grouping loop of Upload.tsx skips the keys age and
Age outright, so an extracted field named age or Age that is not missing and
has numeric confidence 0.97 is placed in no group at all, although the claim
requires it in the high group. -/
theorem c1_counterexample :
    meta97.confidence = some (97/100) ∧ (95/100 : ℚ) ≤ 97/100 ∧
    ("age" ∉ ([] : List String)) ∧ ("Age" ∉ ([] : List String)) ∧
    "age" ∉ (groups [("age", meta97), ("Age", meta97)] []).high ∧
    "Age" ∉ (groups [("age", meta97), ("Age", meta97)] []).high :=
  ⟨rfl, by norm_num, by decide, by decide, by decide, by decide⟩

/-- C1 (corrected): for every extracted field that is not listed as missing,
is not named age or Age, and whose confidence is a number, the thresholds
0.95 and 0.90 govern the classification: confidence at least 0.95 lands in
the high group and confidence in the interval from 0.90 up to but excluding
0.95 lands in the medium group. -/
theorem c1_theorem (meta : List (String × FieldMeta)) (missing : List String)
    (k : String) (m : FieldMeta) (c : ℚ)
    (hmem : (k, m) ∈ meta) (hc : m.confidence = some c)
    (hnm : k ∉ missing) (ha1 : k ≠ "age") (ha2 : k ≠ "Age") :
    (95/100 ≤ c → k ∈ (groups meta missing).high) ∧
    (9/10 ≤ c → c < 95/100 → k ∈ (groups meta missing).medium) := by
  have hcons : keyConsidered missing k = true :=
    keyConsidered_eq_true.mpr ⟨hnm, ha1, ha2⟩
  constructor
  · intro hhi
    exact mem_groupOf.mpr ⟨m, hmem, hcons, c, hc, bucketOf_eq_high hhi⟩
  · intro h1 h2
    exact mem_groupOf.mpr ⟨m, hmem, hcons, c, hc, bucketOf_eq_medium h1 h2⟩

/-- C1 witness: a field of confidence 0.97 reaches the high group and a field
of confidence 0.93 reaches the medium group. -/
theorem c1_witness :
    "chol" ∈ (groups [("chol", meta97), ("trestbps", meta93)] []).high ∧
    "trestbps" ∈ (groups [("chol", meta97), ("trestbps", meta93)] []).medium :=
  ⟨(c1_theorem [("chol", meta97), ("trestbps", meta93)] [] "chol" meta97 (97/100)
      (List.mem_cons_self _ _) rfl (by decide) (by decide) (by decide)).1 (by norm_num),
   (c1_theorem [("chol", meta97), ("trestbps", meta93)] [] "trestbps" meta93 (93/100)
      (List.mem_cons_of_mem _ (List.mem_cons_self _ _)) rfl (by decide) (by decide)
      (by decide)).2 (by norm_num) (by norm_num)⟩

/-- C2 counterexample: a field with confidence 0.97, far above the high
threshold, is included in the optional confirmation list presented to the
user, because Upload.tsx lines 205-209 build that list from both the high
and the medium groups. -/
theorem c2_counterexample :
    meta97.confidence = some (97/100) ∧ (95/100 : ℚ) ≤ 97/100 ∧
    "chol" ∈ optionalConfirmationKeys [("chol", meta97)] [] := by
  refine ⟨rfl, by norm_num, ?_⟩
  rw [mem_optionalConfirmationKeys]
  refine ⟨Or.inl ?_, by decide, by decide, by decide⟩
  exact mem_groupOf.mpr ⟨meta97, List.mem_cons_self _ _, by decide, 97/100, rfl,
    bucketOf_eq_high (by norm_num)⟩

/-- C2 (corrected): a field with confidence at least 0.95 is classified into
the high group and never into the medium group, but the optional
confirmation list shown to the user contains the high group as well, so such
a field does appear there for optional review unless it is named age, Age or
sex. -/
theorem c2_theorem (meta : List (String × FieldMeta)) (missing : List String)
    (k : String) (m : FieldMeta) (c : ℚ)
    (hnd : (meta.map Prod.fst).Nodup)
    (hmem : (k, m) ∈ meta) (hc : m.confidence = some c) (hhi : 95/100 ≤ c)
    (hnm : k ∉ missing) (ha1 : k ≠ "age") (ha2 : k ≠ "Age") :
    k ∈ (groups meta missing).high ∧ k ∉ (groups meta missing).medium ∧
      (k ≠ "sex" → k ∈ optionalConfirmationKeys meta missing) := by
  have hcons : keyConsidered missing k = true :=
    keyConsidered_eq_true.mpr ⟨hnm, ha1, ha2⟩
  have hhigh : k ∈ groupOf meta missing .high :=
    mem_groupOf.mpr ⟨m, hmem, hcons, c, hc, bucketOf_eq_high hhi⟩
  refine ⟨hhigh, ?_, fun hs => ?_⟩
  · exact not_mem_groupOf_of_bucket hnd hmem hc (bucketOf_eq_high hhi) (by decide)
  · exact mem_optionalConfirmationKeys.mpr ⟨Or.inl hhigh, ha1, ha2, hs⟩

/-- C2 witness: concrete evaluation of the corrected statement at a field of
confidence 0.97. -/
theorem c2_witness :
    "chol" ∈ (groups [("chol", meta97)] []).high ∧
    "chol" ∉ (groups [("chol", meta97)] []).medium ∧
    ("chol" ≠ "sex" → "chol" ∈ optionalConfirmationKeys [("chol", meta97)] []) :=
  c2_theorem [("chol", meta97)] [] "chol" meta97 (97/100) (by decide)
    (List.mem_cons_self _ _) rfl (by norm_num) (by decide) (by decide) (by decide)

/-- C3 counterexample: the client consults no schema required flag; a
resolved field of confidence 0.5 is always surfaced in the required-input
bucket, so under a schema that marks the field not required the claim that
it is dropped and surfaced in no bucket is false. -/
theorem c3_counterexample :
    meta50.confidence = some (1/2) ∧ ((1 : ℚ)/2 < 9/10) ∧
    "chol" ∈ requiredKeys [("chol", meta50)] [] := by
  refine ⟨rfl, by norm_num, ?_⟩
  rw [mem_requiredKeys]
  refine ⟨Or.inr ?_, by decide, by decide, by decide⟩
  exact mem_groupOf.mpr ⟨meta50, List.mem_cons_self _ _, by decide, 1/2, rfl,
    bucketOf_eq_low (by norm_num)⟩

/-- C3 (corrected): every resolved field with confidence below 0.90 that is
not named age, Age or sex is merged into the required-input list together
with the missing fields, regardless of any schema required flag, and never
appears in the optional confirmation list; the fields age, Age and sex are
dropped and appear in neither list. -/
theorem c3_theorem (meta : List (String × FieldMeta)) (missing : List String)
    (k : String) (m : FieldMeta) (c : ℚ)
    (hnd : (meta.map Prod.fst).Nodup)
    (hmem : (k, m) ∈ meta) (hc : m.confidence = some c) (hlow : c < 9/10)
    (hnm : k ∉ missing) :
    ((k ≠ "age" ∧ k ≠ "Age" ∧ k ≠ "sex") →
        k ∈ requiredKeys meta missing ∧ k ∉ optionalConfirmationKeys meta missing) ∧
    ((k = "age" ∨ k = "Age" ∨ k = "sex") →
        k ∉ requiredKeys meta missing ∧ k ∉ optionalConfirmationKeys meta missing) := by
  constructor
  · rintro ⟨ha1, ha2, hs⟩
    have hcons : keyConsidered missing k = true :=
      keyConsidered_eq_true.mpr ⟨hnm, ha1, ha2⟩
    have hlowmem : k ∈ groupOf meta missing .low :=
      mem_groupOf.mpr ⟨m, hmem, hcons, c, hc, bucketOf_eq_low hlow⟩
    refine ⟨mem_requiredKeys.mpr ⟨Or.inr hlowmem, ha1, ha2, hs⟩, ?_⟩
    intro hopt
    obtain ⟨hg, _⟩ := mem_optionalConfirmationKeys.mp hopt
    rcases hg with hg | hg
    · exact not_mem_groupOf_of_bucket hnd hmem hc (bucketOf_eq_low hlow) (by decide) hg
    · exact not_mem_groupOf_of_bucket hnd hmem hc (bucketOf_eq_low hlow) (by decide) hg
  · intro hs
    constructor
    · intro hr
      obtain ⟨_, h1, h2, h3⟩ := mem_requiredKeys.mp hr
      rcases hs with rfl | rfl | rfl
      · exact h1 rfl
      · exact h2 rfl
      · exact h3 rfl
    · intro hr
      obtain ⟨_, h1, h2, h3⟩ := mem_optionalConfirmationKeys.mp hr
      rcases hs with rfl | rfl | rfl
      · exact h1 rfl
      · exact h2 rfl
      · exact h3 rfl

/-- C3 witness: a field of confidence 0.5 lands in the required list and not
in the optional confirmation list. -/
theorem c3_witness :
    "SkinThickness" ∈ requiredKeys [("SkinThickness", meta50)] [] ∧
    "SkinThickness" ∉ optionalConfirmationKeys [("SkinThickness", meta50)] [] :=
  (c3_theorem [("SkinThickness", meta50)] [] "SkinThickness" meta50 (1/2)
      (by decide) (List.mem_cons_self _ _) rfl (by norm_num) (by decide)).1
    ⟨by decide, by decide, by decide⟩

/-- C4 counterexample: an extracted field whose confidence is not a number is
placed in no group and therefore surfaces in neither user-facing list, so
the buckets do not cover the full field set. -/
theorem c4_counterexample :
    "chol" ∈ ([("chol", metaNoConf)].map Prod.fst) ∧
    metaNoConf.confidence = none ∧
    optionalConfirmationKeys [("chol", metaNoConf)] [] = [] ∧
    requiredKeys [("chol", metaNoConf)] [] = [] :=
  ⟨by decide, rfl, by decide, by decide⟩

/-- C4 (corrected): restricted to keys that are not age, Age or sex and, for
extracted keys, have a numeric confidence, the two user-facing lists do form
a partition: a missing key lands exactly in the required list, and an
extracted non-missing key with numeric confidence lands in exactly one of
the required and optional confirmation lists; keys without numeric
confidence and the exempt keys appear in neither. -/
theorem c4_theorem (meta : List (String × FieldMeta)) (missing : List String)
    (k : String) (hnd : (meta.map Prod.fst).Nodup)
    (ha1 : k ≠ "age") (ha2 : k ≠ "Age") (hs : k ≠ "sex") :
    (k ∈ missing →
      k ∈ requiredKeys meta missing ∧ k ∉ optionalConfirmationKeys meta missing) ∧
    (∀ m c, (k, m) ∈ meta → m.confidence = some c → k ∉ missing →
      (k ∈ requiredKeys meta missing ∧ k ∉ optionalConfirmationKeys meta missing) ∨
      (k ∉ requiredKeys meta missing ∧ k ∈ optionalConfirmationKeys meta missing)) := by
  constructor
  · intro hk
    refine ⟨mem_requiredKeys.mpr ⟨Or.inl hk, ha1, ha2, hs⟩, ?_⟩
    intro hopt
    obtain ⟨hg, _⟩ := mem_optionalConfirmationKeys.mp hopt
    rcases hg with hg | hg
    · obtain ⟨m, _, hcons, _⟩ := mem_groupOf.mp hg
      exact (keyConsidered_eq_true.mp hcons).1 hk
    · obtain ⟨m, _, hcons, _⟩ := mem_groupOf.mp hg
      exact (keyConsidered_eq_true.mp hcons).1 hk
  · intro m c hmem hc hnm
    have hcons : keyConsidered missing k = true :=
      keyConsidered_eq_true.mpr ⟨hnm, ha1, ha2⟩
    cases hb : bucketOf c with
    | high =>
      right
      have hmemHigh : k ∈ groupOf meta missing .high :=
        mem_groupOf.mpr ⟨m, hmem, hcons, c, hc, hb⟩
      refine ⟨?_, mem_optionalConfirmationKeys.mpr ⟨Or.inl hmemHigh, ha1, ha2, hs⟩⟩
      intro hr
      obtain ⟨hg, _⟩ := mem_requiredKeys.mp hr
      rcases hg with hg | hg
      · exact hnm hg
      · exact not_mem_groupOf_of_bucket hnd hmem hc hb (by decide) hg
    | medium =>
      right
      have hmemMed : k ∈ groupOf meta missing .medium :=
        mem_groupOf.mpr ⟨m, hmem, hcons, c, hc, hb⟩
      refine ⟨?_, mem_optionalConfirmationKeys.mpr ⟨Or.inr hmemMed, ha1, ha2, hs⟩⟩
      intro hr
      obtain ⟨hg, _⟩ := mem_requiredKeys.mp hr
      rcases hg with hg | hg
      · exact hnm hg
      · exact not_mem_groupOf_of_bucket hnd hmem hc hb (by decide) hg
    | low =>
      left
      have hmemLow : k ∈ groupOf meta missing .low :=
        mem_groupOf.mpr ⟨m, hmem, hcons, c, hc, hb⟩
      refine ⟨mem_requiredKeys.mpr ⟨Or.inr hmemLow, ha1, ha2, hs⟩, ?_⟩
      intro hopt
      obtain ⟨hg, _⟩ := mem_optionalConfirmationKeys.mp hopt
      rcases hg with hg | hg
      · exact not_mem_groupOf_of_bucket hnd hmem hc hb (by decide) hg
      · exact not_mem_groupOf_of_bucket hnd hmem hc hb (by decide) hg

/-- C4 witness: a missing field lands exactly in the required list. -/
theorem c4_witness :
    "thal" ∈ requiredKeys [("chol", meta50)] ["thal"] ∧
    "thal" ∉ optionalConfirmationKeys [("chol", meta50)] ["thal"] :=
  (c4_theorem [("chol", meta50)] ["thal"] "thal" (by decide) (by decide)
      (by decide) (by decide)).1 (by decide)

/-- C5 counterexample: the validity check of Upload.tsx skips the keys age
and Age, so a state whose only missing field is age with an empty value
still has canAnalyze true and score computation is attempted. -/
theorem c5_counterexample :
    "age" ∈ ["age"] ∧
    isEmptyVal (lookupVal [("age", JSVal.str (""))] "age") = true ∧
    canAnalyze true MedTask.heart ["age"] [("age", JSVal.str (""))] = true :=
  ⟨by decide, by decide, by decide⟩

/-- C5 (corrected): whenever some missing field other than age and Age has
an empty value, or is a numeric field of the task whose value fails the
finiteness check, the analyze action is unavailable: canAnalyze is false. -/
theorem c5_theorem (haveIngest : Bool) (task : MedTask) (missing : List String)
    (features : List (String × JSVal)) (k : String)
    (hk : k ∈ missing) (ha1 : k ≠ "age") (ha2 : k ≠ "Age")
    (hbad : isEmptyVal (lookupVal features k) = true ∨
      (k ∈ numericFieldsByTask task ∧ isFiniteNumber (lookupVal features k) = false)) :
    canAnalyze haveIngest task missing features = false := by
  cases haveIngest with
  | false => rfl
  | true =>
    have hmem : k ∈ invalidMissing true task missing features := by
      unfold invalidMissing
      rw [if_pos rfl, List.mem_filter]
      refine ⟨hk, ?_⟩
      rw [if_neg (by simp [ha1, ha2])]
      show (if isEmptyVal (lookupVal features k) then true
        else decide (k ∈ numericFieldsByTask task)
          && !(isFiniteNumber (lookupVal features k))) = true
      rcases hbad with he | ⟨hn, hf⟩
      · rw [if_pos he]
      · cases hemp : isEmptyVal (lookupVal features k) with
        | true => simp
        | false => simp [hn, hf]
    have hne : (invalidMissing true task missing features).length ≠ 0 := by
      intro h0
      rw [List.length_eq_zero] at h0
      rw [h0] at hmem
      exact List.not_mem_nil _ hmem
    unfold canAnalyze
    rw [decide_eq_false hne]
    simp

/-- C5 witness: a missing chol with an empty value disables the analyze
action. -/
theorem c5_witness :
    canAnalyze true MedTask.heart ["chol"] [("chol", JSVal.str (""))] = false :=
  c5_theorem true MedTask.heart ["chol"] [("chol", JSVal.str (""))] "chol"
    (by decide) (by decide) (by decide) (Or.inl (by decide))

/-- C6: the analyze action is never available in the general task, the
general mode stash stores a null prediction by design, and the analyze stash
of every other path stores an actual prediction record. -/
theorem c6_theorem :
    (∀ (haveIngest : Bool) (missing : List String) (features : List (String × JSVal)),
      canAnalyze haveIngest MedTask.general missing features = false) ∧
    (∀ features, (generalStash features).prediction = none) ∧
    (∀ (task : MedTask) (features : List (String × JSVal)) (p : PredResponse),
      (analyzeStash task features p).prediction =
        some ⟨p.label, p.probability, p.health_score⟩) := by
  refine ⟨fun hI missing features => ?_, fun _ => rfl, fun _ _ _ => rfl⟩
  unfold canAnalyze
  simp

/-- C7 counterexample: the risk phrase shown to the user maps label 1 to the
higher-risk wording for every one of the four tasks, and the History page
risk mapping ignores the probability as well: the adverse class is the
hard-coded label 1, not a per-task parameter, and no sign inversion exists. -/
theorem c7_counterexample :
    personalizedRiskLevel ⟨MedTask.heart, [], none, none⟩ ⟨1, 1/2, 20⟩ = "higher risk" ∧
    personalizedRiskLevel ⟨MedTask.diabetes, [], none, none⟩ ⟨1, 1/2, 20⟩ = "higher risk" ∧
    personalizedRiskLevel ⟨MedTask.parkinsons, [], none, none⟩ ⟨1, 1/2, 20⟩ = "higher risk" ∧
    personalizedRiskLevel ⟨MedTask.general, [], none, none⟩ ⟨1, 1/2, 20⟩ = "higher risk" ∧
    getRiskLevel 1 0 = "Higher Risk" ∧ getRiskLevel 1 1 = "Higher Risk" :=
  ⟨rfl, rfl, rfl, rfl, rfl, rfl⟩

/-- C7 (corrected): the risk-level mapping is implicit and fixed: it depends
only on the label, identically for every stored task and probability, and
label 1 is always rendered as the elevated-risk class. -/
theorem c7_theorem :
    ∀ (latest latest2 : StoredResult) (p : Prediction) (prob prob2 : ℚ),
      personalizedRiskLevel latest p = personalizedRiskLevel latest2 p ∧
      getRiskLevel p.label prob = getRiskLevel p.label prob2 ∧
      personalizedRiskLevel latest ⟨1, prob, prob2⟩ = "higher risk" :=
  fun _ _ _ _ _ => ⟨rfl, rfl, rfl⟩

/-- C8 counterexample: the ingestion response declared in api.ts carries no
needs-confirmation set; that grouping is derived on the client from the
extracted metadata confidences. -/
theorem c8_counterexample :
    "needs_confirmation_fields" ∉ ingestResponseFields ∧
    "missing_fields" ∈ ingestResponseFields :=
  ⟨by decide, by decide⟩

/-- C8 (corrected): per ingestion call the presentation layer receives the
resolved fields, the per-field metadata with value, unit, confidence and
source, the missing-fields list and the out-of-range list, but no
needs-confirmation set; per scoring call it receives label, probability,
health score and top contributors. -/
theorem c8_theorem :
    "extracted" ∈ ingestResponseFields ∧
    "extracted_meta" ∈ ingestResponseFields ∧
    "missing_fields" ∈ ingestResponseFields ∧
    "out_of_range_fields" ∈ ingestResponseFields ∧
    "needs_confirmation_fields" ∉ ingestResponseFields ∧
    "value" ∈ extractedMetaFields ∧
    "unit" ∈ extractedMetaFields ∧
    "confidence" ∈ extractedMetaFields ∧
    "source" ∈ extractedMetaFields ∧
    "label" ∈ predictResponseFields ∧
    "probability" ∈ predictResponseFields ∧
    "health_score" ∈ predictResponseFields ∧
    "top_contributors" ∈ predictResponseFields := by decide

/-- C9: the fields age, Age and sex never appear in the required-input list
or the optional confirmation list, and age and Age are never flagged by the
missing-value validity check, for every client state. -/
theorem c9_theorem :
    ∀ (meta : List (String × FieldMeta)) (missing : List String)
      (haveIngest : Bool) (task : MedTask) (features : List (String × JSVal)),
      "age" ∉ requiredKeys meta missing ∧ "Age" ∉ requiredKeys meta missing ∧
      "sex" ∉ requiredKeys meta missing ∧
      "age" ∉ optionalConfirmationKeys meta missing ∧
      "Age" ∉ optionalConfirmationKeys meta missing ∧
      "sex" ∉ optionalConfirmationKeys meta missing ∧
      "age" ∉ invalidMissing haveIngest task missing features ∧
      "Age" ∉ invalidMissing haveIngest task missing features := by
  intro meta missing haveIngest task features
  have hreq : ∀ kk, (kk = "age" ∨ kk = "Age" ∨ kk = "sex") →
      kk ∉ requiredKeys meta missing := by
    intro kk hkk h
    obtain ⟨_, h1, h2, h3⟩ := mem_requiredKeys.mp h
    rcases hkk with rfl | rfl | rfl
    · exact h1 rfl
    · exact h2 rfl
    · exact h3 rfl
  have hopt : ∀ kk, (kk = "age" ∨ kk = "Age" ∨ kk = "sex") →
      kk ∉ optionalConfirmationKeys meta missing := by
    intro kk hkk h
    obtain ⟨_, h1, h2, h3⟩ := mem_optionalConfirmationKeys.mp h
    rcases hkk with rfl | rfl | rfl
    · exact h1 rfl
    · exact h2 rfl
    · exact h3 rfl
  have hinv : ∀ kk, (kk = "age" ∨ kk = "Age") →
      kk ∉ invalidMissing haveIngest task missing features := by
    intro kk hkk h
    cases haveIngest with
    | false => simp [invalidMissing] at h
    | true =>
      unfold invalidMissing at h
      rw [if_pos rfl, List.mem_filter] at h
      obtain ⟨_, hp⟩ := h
      rcases hkk with rfl | rfl <;> simp at hp
  exact ⟨hreq _ (Or.inl rfl), hreq _ (Or.inr (Or.inl rfl)),
    hreq _ (Or.inr (Or.inr rfl)), hopt _ (Or.inl rfl),
    hopt _ (Or.inr (Or.inl rfl)), hopt _ (Or.inr (Or.inr rfl)),
    hinv _ (Or.inl rfl), hinv _ (Or.inr rfl)⟩

/-- Slicing at -10 keeps at most ten messages. -/
lemma takeLastTen_length_le (l : List ChatMsg) : (takeLastTen l).length ≤ 10 := by
  unfold takeLastTen
  rw [List.length_drop]
  omega

/-- Invariant of the chat system preserved by every step: each stored chat
history is either absent or the last ten messages of its transcript. -/
def chatInv (s : ChatStore) : Prop :=
  (s.triageStored = none ∨ s.triageStored = some (takeLastTen s.triageMsgs)) ∧
  (s.floatStored = none ∨ s.floatStored = some (takeLastTen s.floatMsgs))

/-- Every chat step preserves the invariant. -/
lemma chatStep_inv (s : ChatStore) (e : ChatEvent) (h : chatInv s) :
    chatInv (chatStep s e) := by
  cases e with
  | triageTurn q a => exact ⟨Or.inr rfl, h.2⟩
  | triageNewReport g => exact ⟨Or.inl rfl, h.2⟩
  | floatTurn q a => exact ⟨h.1, Or.inr rfl⟩
  | floatNewReport g => exact ⟨h.1, Or.inl rfl⟩

/-- Folding chat steps preserves the invariant. -/
lemma chatRun_inv (evs : List ChatEvent) (s : ChatStore) (h : chatInv s) :
    chatInv (evs.foldl chatStep s) := by
  induction evs generalizing s with
  | nil => exact h
  | cons e r ih =>
    rw [List.foldl_cons]
    exact ih _ (chatStep_inv s e h)

/-- C10: after any sequence of chat events, each persisted history is the
last ten (or fewer) messages of its transcript, and in particular holds at
most ten messages. -/
theorem c10_theorem :
    ∀ evs : List ChatEvent,
      ((runChat evs).triageStored = none ∨
        (runChat evs).triageStored = some (takeLastTen (runChat evs).triageMsgs)) ∧
      (((runChat evs).triageStored.getD []).length ≤ 10) ∧
      ((runChat evs).floatStored = none ∨
        (runChat evs).floatStored = some (takeLastTen (runChat evs).floatMsgs)) ∧
      (((runChat evs).floatStored.getD []).length ≤ 10) := by
  intro evs
  have h : chatInv (runChat evs) :=
    chatRun_inv evs initChat ⟨Or.inl rfl, Or.inl rfl⟩
  obtain ⟨h1, h2⟩ := h
  refine ⟨h1, ?_, h2, ?_⟩
  · rcases h1 with h1 | h1 <;> rw [h1]
    · simp
    · simpa using takeLastTen_length_le _
  · rcases h2 with h2 | h2 <;> rw [h2]
    · simp
    · simpa using takeLastTen_length_le _
